import Mathlib

/-!
Verification of the health-data normalization pipeline
(metric-type classifier, numeric value parser, record builder,
persistence dispatch) against its design specification.

JS strings are modelled as `List Char`; the relevant fragment of
JS string semantics (toLowerCase, trim, includes, the two regex
replacements used by the slugifier, and the numeric-extraction
regex) is embedded as executable Lean functions.
-/

set_option maxHeartbeats 1000000

namespace MiHealth

abbrev Str := List Char

/-- The JS whitespace class (ASCII part), as used by `trim` and `\s`. -/
def isJsSpace (c : Char) : Bool :=
  c = ' ' || c = '\t' || c = '\n' || c = '\r' || c = Char.ofNat 11 || c = Char.ofNat 12

/-- `String.prototype.toLowerCase` restricted to ASCII, applied charwise. -/
def toLowerStr (s : Str) : Str := s.map Char.toLower

/-- Drop leading JS whitespace. -/
def trimLeft (s : Str) : Str := s.dropWhile isJsSpace

/-- Drop trailing JS whitespace. -/
def trimRight (s : Str) : Str := (s.reverse.dropWhile isJsSpace).reverse

/-- `String.prototype.trim`. -/
def jsTrim (s : Str) : Str := trimRight (trimLeft s)

/-- Does `s` start with `pat`? (Helper for the `includes` model.) -/
def startsWithStr : Str → Str → Bool
  | _, [] => true
  | [], _ :: _ => false
  | a :: as, b :: bs => (a = b) && startsWithStr as bs

/-- `String.prototype.includes`: `sub` occurs contiguously in `s`. -/
def jsIncludes : Str → Str → Bool
  | [], sub => sub.isEmpty
  | c :: t, sub => startsWithStr (c :: t) sub || jsIncludes t sub

/-- Declarative substring occurrence: `sub` occurs contiguously in `s`. -/
def SubstrOcc (sub s : Str) : Prop := ∃ pre post, s = pre ++ sub ++ post

/--
The `metricTypeMap` object literal, as the ordered association list produced
by `Object.entries`: string keys in declaration order, first occurrence kept
for position. The source repeats four keys with identical values
(`testosterone`, `vitamin b12`, `vitamin d`, `testosteron`); a repeated key
keeps its first position, so the entries list has 78 pairs.
-/
def metricTypeMap : List (Str × Str) := [
  ("glucose".toList, "blood_glucose".toList),
  ("blood glucose".toList, "blood_glucose".toList),
  ("blood sugar".toList, "blood_glucose".toList),
  ("fasting glucose".toList, "blood_glucose".toList),
  ("random glucose".toList, "blood_glucose".toList),
  ("cholesterol".toList, "total_cholesterol".toList),
  ("total cholesterol".toList, "total_cholesterol".toList),
  ("cholesteroltotal".toList, "total_cholesterol".toList),
  ("ldl cholesterol".toList, "ldl_cholesterol".toList),
  ("ldl".toList, "ldl_cholesterol".toList),
  ("hdl cholesterol".toList, "hdl_cholesterol".toList),
  ("hdl".toList, "hdl_cholesterol".toList),
  ("triglycerides".toList, "triglycerides".toList),
  ("vitamin d".toList, "vitamin_d".toList),
  ("vitamin d3".toList, "vitamin_d".toList),
  ("vitamin d 25-hydroxy".toList, "vitamin_d".toList),
  ("vitamin b12".toList, "vitamin_b12".toList),
  ("vitamin b-12".toList, "vitamin_b12".toList),
  ("cobalamin".toList, "vitamin_b12".toList),
  ("folate".toList, "folate".toList),
  ("folic acid".toList, "folate".toList),
  ("vitamin c".toList, "vitamin_c".toList),
  ("ascorbic acid".toList, "vitamin_c".toList),
  ("hemoglobin".toList, "hemoglobin".toList),
  ("hgb".toList, "hemoglobin".toList),
  ("hematocrit".toList, "hematocrit".toList),
  ("hct".toList, "hematocrit".toList),
  ("white blood cells".toList, "wbc".toList),
  ("wbc".toList, "wbc".toList),
  ("red blood cells".toList, "rbc".toList),
  ("rbc".toList, "rbc".toList),
  ("platelets".toList, "platelets".toList),
  ("blood pressure".toList, "blood_pressure_systolic".toList),
  ("systolic".toList, "blood_pressure_systolic".toList),
  ("diastolic".toList, "blood_pressure_diastolic".toList),
  ("weight".toList, "weight".toList),
  ("heart rate".toList, "heart_rate".toList),
  ("pulse".toList, "heart_rate".toList),
  ("temperature".toList, "temperature".toList),
  ("creatinine".toList, "creatinine".toList),
  ("bun".toList, "bun".toList),
  ("blood urea nitrogen".toList, "bun".toList),
  ("egfr".toList, "egfr".toList),
  ("alt".toList, "alt".toList),
  ("ast".toList, "ast".toList),
  ("bilirubin".toList, "bilirubin".toList),
  ("alkaline phosphatase".toList, "alkaline_phosphatase".toList),
  ("tsh".toList, "tsh".toList),
  ("thyroid stimulating hormone".toList, "tsh".toList),
  ("t3".toList, "t3".toList),
  ("t4".toList, "t4".toList),
  ("free t4".toList, "free_t4".toList),
  ("free t3".toList, "free_t3".toList),
  ("iron".toList, "iron".toList),
  ("ferritin".toList, "ferritin".toList),
  ("calcium".toList, "calcium".toList),
  ("magnesium".toList, "magnesium".toList),
  ("phosphorus".toList, "phosphorus".toList),
  ("potassium".toList, "potassium".toList),
  ("sodium".toList, "sodium".toList),
  ("chloride".toList, "chloride".toList),
  ("testosterone".toList, "testosterone".toList),
  ("estrogen".toList, "estrogen".toList),
  ("cortisol".toList, "cortisol".toList),
  ("insulin".toList, "insulin".toList),
  ("vitamina b12".toList, "vitamin_b12".toList),
  ("vitamina d".toList, "vitamin_d".toList),
  ("25-oh-vitamina d".toList, "vitamin_d".toList),
  ("testosteron".toList, "testosterone".toList),
  ("mercur".toList, "mercury".toList),
  ("mercur in sange".toList, "mercury_blood".toList),
  ("mercurio".toList, "mercury".toList),
  ("vitamine b12".toList, "vitamin_b12".toList),
  ("vitamine d".toList, "vitamin_d".toList),
  ("mercury".toList, "mercury".toList),
  ("lead".toList, "lead".toList),
  ("cadmium".toList, "cadmium".toList),
  ("arsenic".toList, "arsenic".toList)]

/-- Property access `metricTypeMap[normalized]` on the object: the value of
the entry with the given key, when present. -/
def lookupStr : List (Str × Str) → Str → Option Str
  | [], _ => none
  | (k, v) :: rest, n => if n = k then some v else lookupStr rest n

/-- The substring-fallback loop: first entry, in declaration order, whose key
contains the normalized name or is contained in it. -/
def findSubstringMatch : List (Str × Str) → Str → Option Str
  | [], _ => none
  | (k, v) :: rest, n =>
    if jsIncludes n k || jsIncludes k n then some v else findSubstringMatch rest n

/-- Character class kept by the slugifier's first replacement
`replace(/[^\w\s-]/g, '')`: word characters, whitespace, hyphen. -/
def keepSlugChar (c : Char) : Bool :=
  c.isAlphanum || c = '_' || isJsSpace c || c = '-'

/-- Worker for `collapseRuns`: `inRun` records whether the previous
character was in the class (so the run's replacement was already emitted). -/
def collapseRunsAux (p : Char → Bool) (r : Char) : Bool → Str → Str
  | _, [] => []
  | inRun, c :: cs =>
    if p c then
      if inRun then collapseRunsAux p r true cs
      else r :: collapseRunsAux p r true cs
    else c :: collapseRunsAux p r false cs

/-- `replace(/P+/g, r)` for a character class `P`: each maximal run of
characters satisfying `p` becomes the single character `r`. -/
def collapseRuns (p : Char → Bool) (r : Char) (s : Str) : Str :=
  collapseRunsAux p r false s

/-- Drop a single leading underscore, if present. -/
def stripLeadUnderscore : Str → Str
  | [] => []
  | c :: t => if c = '_' then t else c :: t

/-- The slugification fallback of `getMetricType`: strip characters outside
`[\w\s-]`, turn whitespace runs and hyphen runs into underscores, collapse
underscore runs, and remove one leading and one trailing underscore
(`replace(/^_|_$/g, '')`; after collapsing there is at most one of each). -/
def slugify (s : Str) : Str :=
  let s1 := s.filter keepSlugChar
  let s2 := collapseRuns isJsSpace '_' s1
  let s3 := collapseRuns (fun c => c = '-') '_' s2
  let s4 := collapseRuns (fun c => c = '_') '_' s3
  (stripLeadUnderscore (stripLeadUnderscore s4).reverse).reverse

/-- The part of `getMetricType` after the exact-match attempt: substring
fallback, then slugification. -/
def metricFallback (normalized : Str) : Str :=
  match findSubstringMatch metricTypeMap normalized with
  | some v => v
  | none => slugify normalized

/-- `testName.toLowerCase().trim()`, the `normalized` of `getMetricType`. -/
def normalizeName (s : Str) : Str := jsTrim (toLowerStr s)

/-- `getMetricType`: lowercase and trim the test name, try an exact lookup
(the JS truthiness guard also sends an empty value to the fallback), then
the substring fallback, then slugification. -/
def getMetricType (testName : Str) : Str :=
  match lookupStr metricTypeMap (normalizeName testName) with
  | some v => if v.isEmpty then metricFallback (normalizeName testName) else v
  | none => metricFallback (normalizeName testName)

/-- A JS value as it can reach `parseNumericValue` at runtime:
`null`, `undefined`, a number, or a string. -/
inductive JsValue where
  | null : JsValue
  | undef : JsValue
  | num : ℚ → JsValue
  | str : Str → JsValue
deriving DecidableEq

/-- Value of a digit character. -/
def digitVal (c : Char) : Nat := c.toNat - 48

/-- Numeric value of a digit string (most significant first). -/
def digitsToNat (l : Str) : Nat := l.foldl (fun n c => n * 10 + digitVal c) 0

/-- `parseFloat` on a string of shape `digits` or `digits.digits`
(the only shapes the extraction regex can produce), as an exact rational. -/
def parseFloatModel (m : Str) : ℚ :=
  let ip := m.takeWhile (fun c => c.isDigit)
  match m.dropWhile (fun c => c.isDigit) with
  | '.' :: fs =>
    mkRat (Int.ofNat (digitsToNat ip * 10 ^ fs.length + digitsToNat fs)) (10 ^ fs.length)
  | _ => (digitsToNat ip : ℚ)

/-- The optional fractional part of a match of `/(\d+(?:\.\d+)?)/`: given
the text after the integer digit run, a dot followed by at least one digit
extends the match by the dot and the maximal digit run. -/
def matchNumTail : Str → Str
  | [] => []
  | y :: r2 =>
    if y = '.' then
      if (r2.takeWhile (fun c => c.isDigit)).isEmpty then []
      else '.' :: r2.takeWhile (fun c => c.isDigit)
    else []

/-- The match of the regex `/(\d+(?:\.\d+)?)/` anchored at the start of `l`,
assuming `l` starts with a digit: maximal digit run, then optionally a dot
followed by a maximal nonempty digit run. -/
def matchNumAt (l : Str) : Str :=
  l.takeWhile (fun c => c.isDigit) ++ matchNumTail (l.dropWhile (fun c => c.isDigit))

/-- First match of `/(\d+(?:\.\d+)?)/` in `l`: scan to the first digit and
match there. -/
def findNum : Str → Option Str
  | [] => none
  | c :: cs => if c.isDigit then some (matchNumAt (c :: cs)) else findNum cs

/-- `parseNumericValue`: null/undefined/empty-string give null; a number is
returned unchanged; otherwise the first decimal run of the string is parsed
with `parseFloat`, null when there is none. -/
def parseNumericValue : JsValue → Option ℚ
  | JsValue.null => none
  | JsValue.undef => none
  | JsValue.num q => some q
  | JsValue.str s => if s = [] then none else (findNum s).map parseFloatModel

/-- A `new Date(...)` result: `some t` a valid timestamp, `none` an
Invalid Date (NaN time value). -/
abbrev JsDate := Option Int

/-- Model of the JS `Date` constructor's string parsing for the date strings
used in this development: an ISO `YYYY-MM-DD` string is valid (encoded as
the digits read as a number), anything else is an Invalid Date, as in JS
for strings such as `"garbage"`. -/
def isoDateParse (s : Str) : JsDate :=
  match s with
  | [y1, y2, y3, y4, '-', m1, m2, '-', d1, d2] =>
    if [y1, y2, y3, y4, m1, m2, d1, d2].all (fun c => c.isDigit) then
      some (Int.ofNat (digitsToNat [y1, y2, y3, y4, m1, m2, d1, d2]))
    else none
  | _ => none

/-- A `labResults` entry of the extracted data. -/
structure LabResult where
  test : Str
  value : JsValue
  unit : Str
  referenceRange : Str
  date : Str
deriving DecidableEq

/-- A `vitals` entry of the extracted data; `value` is `none` when the
runtime value is null or undefined. -/
structure Vital where
  type : Str
  value : Option ℚ
  unit : Str
  date : Str
deriving DecidableEq

/-- A `diagnoses` entry (not converted to metrics by the pipeline). -/
structure Diagnosis where
  condition : Str
  date : Str
  notes : Str
deriving DecidableEq

/-- A `medications` entry (not converted to metrics by the pipeline). -/
structure Medication where
  name : Str
  dosage : Str
  frequency : Str
deriving DecidableEq

/-- The AI extraction output; every field is optional. A missing or empty
string field is modelled as `none` / `[]` (both are falsy in JS). -/
structure ExtractedHealthData where
  documentType : Option Str
  date : Option Str
  provider : Option Str
  labResults : Option (List LabResult)
  vitals : Option (List Vital)
  diagnoses : Option (List Diagnosis)
  medications : Option (List Medication)
  notes : Option Str
deriving DecidableEq

/-- An element of `metricsToSave`. -/
structure HealthMetric where
  userId : Str
  metricType : Str
  value : ℚ
  unit : Str
  recordedAt : JsDate
  source : Str
deriving DecidableEq

/-- One iteration of the lab-results loop: skip when the test name is empty
(falsy) or the value parses to null, otherwise build the record.
`recordedAt` is `new Date(result.date)` when `result.date` is truthy and
the current time otherwise; the date parser is passed explicitly. -/
def labRecord (dateParse : Str → JsDate) (now : Int) (userId : Str)
    (r : LabResult) : Option HealthMetric :=
  if r.test = [] then none
  else
    match parseNumericValue r.value with
    | none => none
    | some v =>
      some ⟨userId, getMetricType r.test, v, r.unit,
        (if r.date = [] then some now else dateParse r.date),
        "document_extraction".toList⟩

/-- One iteration of the vitals loop: skip when the type is empty (falsy)
or the value is null/undefined, otherwise build the record. -/
def vitalRecord (dateParse : Str → JsDate) (now : Int) (userId : Str)
    (v : Vital) : Option HealthMetric :=
  if v.type = [] then none
  else
    match v.value with
    | none => none
    | some q =>
      some ⟨userId, getMetricType v.type, q, v.unit,
        (if v.date = [] then some now else dateParse v.date),
        "document_extraction".toList⟩

/-- The lab-results loop, accumulating into `metricsToSave`. -/
def labLoop (dateParse : Str → JsDate) (now : Int) (userId : Str)
    (acc : List HealthMetric) : List LabResult → List HealthMetric
  | [] => acc
  | r :: rest =>
    match labRecord dateParse now userId r with
    | none => labLoop dateParse now userId acc rest
    | some m => labLoop dateParse now userId (acc ++ [m]) rest

/-- The vitals loop, accumulating into `metricsToSave`. -/
def vitalLoop (dateParse : Str → JsDate) (now : Int) (userId : Str)
    (acc : List HealthMetric) : List Vital → List HealthMetric
  | [] => acc
  | v :: rest =>
    match vitalRecord dateParse now userId v with
    | none => vitalLoop dateParse now userId acc rest
    | some m => vitalLoop dateParse now userId (acc ++ [m]) rest

/-- `metricsToSave` as built by `processAndSaveHealthData`: the lab loop
(when `labResults` is present) followed by the vitals loop (when `vitals`
is present). -/
def buildRecords (dateParse : Str → JsDate) (now : Int) (userId : Str)
    (d : ExtractedHealthData) : List HealthMetric :=
  let acc1 :=
    match d.labResults with
    | some ls => labLoop dateParse now userId [] ls
    | none => []
  match d.vitals with
  | some vs => vitalLoop dateParse now userId acc1 vs
  | none => acc1

/-- `processAndSaveHealthData`: build the batch; when non-empty, make the
single `saveHealthMetrics` call (modelled as an `Except`-valued collaborator
so it can throw) and return its boolean, with the surrounding try/catch
turning a thrown exception into `false`; when empty, return `true`.
The second component records the argument of every call made to the
collaborator. `fileName` and `extractedText` are unused by the function
body, as in the source. -/
def processAndSaveHealthData (save : List HealthMetric → Except Unit Bool)
    (dateParse : Str → JsDate) (now : Int) (userId : Str)
    (fileName extractedText : Str) (d : ExtractedHealthData) :
    Bool × List (List HealthMetric) :=
  let metrics := buildRecords dateParse now userId d
  if metrics.length > 0 then
    match save metrics with
    | Except.ok true => (true, [metrics])
    | Except.ok false => (false, [metrics])
    | Except.error _ => (false, [metrics])
  else (true, [])

/-! ### Substring semantics -/

theorem startsWithStr_iff : ∀ (s pat : Str),
    startsWithStr s pat = true ↔ ∃ rest, s = pat ++ rest
  | s, [] => by
    constructor
    · intro _; exact ⟨s, rfl⟩
    · intro _; cases s <;> rfl
  | [], _ :: _ => by
    constructor
    · intro h; exact absurd h (by simp [startsWithStr])
    · rintro ⟨rest, h⟩; exact absurd h (by simp)
  | a :: as, b :: bs => by
    constructor
    · intro h
      have h' := h
      simp only [startsWithStr, Bool.and_eq_true, decide_eq_true_eq] at h'
      obtain ⟨hab, htail⟩ := h'
      obtain ⟨rest, hrest⟩ := (startsWithStr_iff as bs).mp htail
      exact ⟨rest, by simp [hab, hrest]⟩
    · rintro ⟨rest, h⟩
      injection h with h1 h2
      have htail := (startsWithStr_iff as bs).mpr ⟨rest, h2⟩
      simp [startsWithStr, h1, htail]

theorem jsIncludes_iff : ∀ (s sub : Str), jsIncludes s sub = true ↔ SubstrOcc sub s
  | [], sub => by
    constructor
    · intro h
      have hsub : sub = [] := by
        cases sub with
        | nil => rfl
        | cons c t => exact absurd h (by simp [jsIncludes, List.isEmpty])
      exact ⟨[], [], by simp [hsub]⟩
    · rintro ⟨pre, post, h⟩
      have := h.symm
      simp only [List.append_eq_nil] at this
      obtain ⟨⟨_, hsub⟩, _⟩ := this
      simp [jsIncludes, hsub, List.isEmpty]
  | c :: t, sub => by
    constructor
    · intro h
      rcases Bool.or_eq_true _ _ |>.mp h with hs | ht
      · obtain ⟨rest, hrest⟩ := (startsWithStr_iff (c :: t) sub).mp hs
        exact ⟨[], rest, by simp [hrest]⟩
      · obtain ⟨pre, post, hpp⟩ := (jsIncludes_iff t sub).mp ht
        exact ⟨c :: pre, post, by simp [hpp]⟩
    · rintro ⟨pre, post, h⟩
      cases pre with
      | nil =>
        have hs := (startsWithStr_iff (c :: t) sub).mpr ⟨post, by simpa using h⟩
        exact Bool.or_eq_true _ _ |>.mpr (Or.inl hs)
      | cons p pre' =>
        injection h with h1 h2
        have ht := (jsIncludes_iff t sub).mpr ⟨pre', post, h2⟩
        exact Bool.or_eq_true _ _ |>.mpr (Or.inr ht)

/-! ### Exact lookup -/

theorem lookupStr_mem : ∀ (m : List (Str × Str)) (n v : Str),
    lookupStr m n = some v → (n, v) ∈ m
  | [], n, v => by simp [lookupStr]
  | (k, w) :: rest, n, v => by
    by_cases hk : n = k
    · simp only [lookupStr, if_pos hk]
      intro h
      injection h with h'
      subst h'; subst hk
      exact List.mem_cons_self _ _
    · simp only [lookupStr, if_neg hk]
      intro h
      exact List.mem_cons_of_mem _ (lookupStr_mem rest n v h)

theorem lookupStr_eq_of_mem_nodup : ∀ (m : List (Str × Str)) (k v : Str),
    (m.map Prod.fst).Nodup → (k, v) ∈ m → lookupStr m k = some v
  | [], k, v => by simp
  | (k', w) :: rest, k, v => by
    intro hnd hmem
    simp only [List.map_cons, List.nodup_cons] at hnd
    obtain ⟨hk', hndr⟩ := hnd
    rcases List.mem_cons.mp hmem with heq | hrest
    · injection heq with h1 h2
      subst h1; subst h2
      simp [lookupStr]
    · have hne : k ≠ k' := by
        intro h
        subst h
        exact hk' (List.mem_map.mpr ⟨(k, v), hrest, rfl⟩)
      simp only [lookupStr, if_neg hne]
      exact lookupStr_eq_of_mem_nodup rest k v hndr hrest

/-! ### The substring-fallback loop -/

/-- The loop condition of the substring fallback for one entry. -/
def entryMatchesB (n : Str) (e : Str × Str) : Bool :=
  jsIncludes n e.1 || jsIncludes e.1 n

/-- The loop condition, declaratively: the entry's key occurs in the
normalized name or the normalized name occurs in the key. -/
def EntryMatches (n : Str) (e : Str × Str) : Prop :=
  SubstrOcc e.1 n ∨ SubstrOcc n e.1

theorem entryMatches_iff (n : Str) (e : Str × Str) :
    EntryMatches n e ↔ entryMatchesB n e = true := by
  unfold EntryMatches entryMatchesB
  rw [Bool.or_eq_true, jsIncludes_iff, jsIncludes_iff]

theorem findSubstringMatch_mem : ∀ (m : List (Str × Str)) (n v : Str),
    findSubstringMatch m n = some v → ∃ k, (k, v) ∈ m
  | [], n, v => by simp [findSubstringMatch]
  | (k, w) :: rest, n, v => by
    simp only [findSubstringMatch]
    split
    · intro h
      injection h with h'
      exact ⟨k, by simp [h']⟩
    · intro h
      obtain ⟨k', hk'⟩ := findSubstringMatch_mem rest n v h
      exact ⟨k', List.mem_cons_of_mem _ hk'⟩

theorem findSubstringMatch_first : ∀ (m : List (Str × Str)) (n : Str) (i : Nat),
    i < m.length →
    entryMatchesB n (m.getD i ([], [])) = true →
    (∀ j, j < i → entryMatchesB n (m.getD j ([], [])) = false) →
    findSubstringMatch m n = some (m.getD i ([], [])).2
  | [], n, i => by intro hi; exact absurd hi (by simp)
  | (k, w) :: rest, n, 0 => by
    intro _ hm _
    rw [List.getD_cons_zero] at hm ⊢
    unfold entryMatchesB at hm
    simp only [findSubstringMatch]
    rw [if_pos (by simpa using hm)]
  | (k, w) :: rest, n, i + 1 => by
    intro hi hm hprev
    have h0 : entryMatchesB n (k, w) = false := by
      have := hprev 0 (Nat.succ_pos i)
      rwa [List.getD_cons_zero] at this
    unfold entryMatchesB at h0
    simp only [findSubstringMatch]
    rw [if_neg (by simp [h0])]
    rw [List.getD_cons_succ] at hm ⊢
    exact findSubstringMatch_first rest n i (Nat.lt_of_succ_lt_succ hi) hm
      (fun j hj => by
        have := hprev (j + 1) (Nat.succ_lt_succ hj)
        rwa [List.getD_cons_succ] at this)

/-! ### Slugification -/

theorem mem_collapseRunsAux_of : ∀ (p : Char → Bool) (r : Char) (b : Bool) (l : Str)
    (a : Char), p a = false → a ∈ l → a ∈ collapseRunsAux p r b l
  | p, r, b, [], a => by intro _ h; exact absurd h (by simp)
  | p, r, b, c :: cs, a => by
    intro hpa hmem
    rcases List.mem_cons.mp hmem with heq | htail
    · subst heq
      have hpc : p a = false := hpa
      simp [collapseRunsAux, hpc]
    · by_cases hpc : p c = true
      · have ih := mem_collapseRunsAux_of p r true cs a hpa htail
        cases b with
        | true => simpa [collapseRunsAux, hpc] using ih
        | false => simp [collapseRunsAux, hpc]; exact Or.inr ih
      · have hpc' : p c = false := by
          cases h : p c with
          | true => exact absurd h hpc
          | false => rfl
        have ih := mem_collapseRunsAux_of p r false cs a hpa htail
        simp [collapseRunsAux, hpc']
        exact Or.inr ih

theorem mem_collapseRunsAux_elim : ∀ (p : Char → Bool) (r : Char) (b : Bool) (l : Str)
    (a : Char), a ∈ collapseRunsAux p r b l → a = r ∨ (a ∈ l ∧ p a = false)
  | p, r, b, [], a => by intro h; exact absurd h (by simp [collapseRunsAux])
  | p, r, b, c :: cs, a => by
    intro hmem
    by_cases hpc : p c = true
    · cases b with
      | true =>
        simp only [collapseRunsAux, hpc, if_pos] at hmem
        rcases mem_collapseRunsAux_elim p r true cs a hmem with h | ⟨h1, h2⟩
        · exact Or.inl h
        · exact Or.inr ⟨List.mem_cons_of_mem _ h1, h2⟩
      | false =>
        simp only [collapseRunsAux, hpc, if_pos] at hmem
        rcases List.mem_cons.mp hmem with heq | htail
        · exact Or.inl heq
        · rcases mem_collapseRunsAux_elim p r true cs a htail with h | ⟨h1, h2⟩
          · exact Or.inl h
          · exact Or.inr ⟨List.mem_cons_of_mem _ h1, h2⟩
    · have hpc' : p c = false := by
        cases h : p c with
        | true => exact absurd h hpc
        | false => rfl
      simp only [collapseRunsAux, hpc', Bool.false_eq_true, if_neg, not_false_iff] at hmem
      rcases List.mem_cons.mp hmem with heq | htail
      · subst heq; exact Or.inr ⟨List.mem_cons_self _ _, hpc'⟩
      · rcases mem_collapseRunsAux_elim p r false cs a htail with h | ⟨h1, h2⟩
        · exact Or.inl h
        · exact Or.inr ⟨List.mem_cons_of_mem _ h1, h2⟩

theorem collapseRunsAux_true_of_all : ∀ (p : Char → Bool) (r : Char) (l : Str),
    (∀ c ∈ l, p c = true) → collapseRunsAux p r true l = []
  | p, r, [] => by intro _; rfl
  | p, r, c :: cs => by
    intro h
    have hpc := h c (List.mem_cons_self c cs)
    have ih := collapseRunsAux_true_of_all p r cs (fun x hx => h x (List.mem_cons_of_mem _ hx))
    simp [collapseRunsAux, hpc, ih]

theorem collapseRunsAux_false_of_all (p : Char → Bool) (r : Char) (l : Str)
    (h : ∀ c ∈ l, p c = true) (hne : l ≠ []) : collapseRunsAux p r false l = [r] := by
  cases l with
  | nil => exact absurd rfl hne
  | cons c cs =>
    have hpc := h c (List.mem_cons_self c cs)
    have ht := collapseRunsAux_true_of_all p r cs (fun x hx => h x (List.mem_cons_of_mem _ hx))
    simp [collapseRunsAux, hpc, ht]

theorem mem_stripLeadUnderscore (l : Str) (a : Char) (ha : a ≠ '_') (hm : a ∈ l) :
    a ∈ stripLeadUnderscore l := by
  cases l with
  | nil => exact absurd hm (by simp)
  | cons c t =>
    by_cases hc : c = '_'
    · rcases List.mem_cons.mp hm with heq | htail
      · exact absurd (heq.trans hc) ha
      · simpa [stripLeadUnderscore, hc] using htail
    · simpa [stripLeadUnderscore, hc] using hm

theorem alnum_keepSlugChar (c : Char) (h : c.isAlphanum = true) : keepSlugChar c = true := by
  simp [keepSlugChar, h]

theorem alnum_not_jsSpace (c : Char) (h : c.isAlphanum = true) : isJsSpace c = false := by
  cases hs : isJsSpace c with
  | false => rfl
  | true =>
    exfalso
    simp only [isJsSpace, Bool.or_eq_true, decide_eq_true_eq] at hs
    rcases hs with ((((h1 | h1) | h1) | h1) | h1) | h1 <;> subst h1 <;> exact absurd h (by decide)

theorem alnum_ne_hyphen (c : Char) (h : c.isAlphanum = true) : c ≠ '-' := by
  intro heq; subst heq; exact absurd h (by decide)

theorem alnum_ne_underscore (c : Char) (h : c.isAlphanum = true) : c ≠ '_' := by
  intro heq; subst heq; exact absurd h (by decide)

/-- An alphanumeric character of the input survives every slugification
stage, so the slug is non-empty. -/
theorem slugify_ne_nil_of_alnum (s : Str) (c : Char) (hc : c.isAlphanum = true)
    (hm : c ∈ s) : slugify s ≠ [] := by
  have h1 : c ∈ s.filter keepSlugChar :=
    List.mem_filter.mpr ⟨hm, alnum_keepSlugChar c hc⟩
  have h2 : c ∈ collapseRunsAux isJsSpace '_' false (s.filter keepSlugChar) :=
    mem_collapseRunsAux_of _ _ _ _ _ (alnum_not_jsSpace c hc) h1
  have h3 := mem_collapseRunsAux_of (fun x => x = '-') '_' false _ c
    (decide_eq_false (alnum_ne_hyphen c hc)) h2
  have h4 := mem_collapseRunsAux_of (fun x => x = '_') '_' false _ c
    (decide_eq_false (alnum_ne_underscore c hc)) h3
  have h5 := mem_stripLeadUnderscore _ c (alnum_ne_underscore c hc) h4
  have h6 : c ∈ (stripLeadUnderscore _).reverse := List.mem_reverse.mpr h5
  have h7 := mem_stripLeadUnderscore _ c (alnum_ne_underscore c hc) h6
  have h8 : c ∈ (stripLeadUnderscore (stripLeadUnderscore _).reverse).reverse :=
    List.mem_reverse.mpr h7
  intro hnil
  rw [slugify] at hnil
  simp only [collapseRuns] at hnil
  rw [hnil] at h8
  exact absurd h8 (by simp)

/-- With no alphanumeric character in the input, slugification produces
the empty string: only whitespace, hyphens and underscores survive the
filter, all of which collapse to underscores, which are then stripped. -/
theorem slugify_eq_nil_of_no_alnum (s : Str) (h : ∀ c ∈ s, c.isAlphanum = false) :
    slugify s = [] := by
  have hf : ∀ c ∈ s.filter keepSlugChar, c = '_' ∨ isJsSpace c = true ∨ c = '-' := by
    intro c hc
    obtain ⟨hcs, hkeep⟩ := List.mem_filter.mp hc
    have hna := h c hcs
    simp only [keepSlugChar, hna, Bool.false_or, Bool.or_eq_true, decide_eq_true_eq] at hkeep
    tauto
  have h2 : ∀ c ∈ collapseRunsAux isJsSpace '_' false (s.filter keepSlugChar),
      c = '_' ∨ c = '-' := by
    intro c hc
    rcases mem_collapseRunsAux_elim _ _ _ _ _ hc with heq | ⟨hmem, hsp⟩
    · exact Or.inl heq
    · rcases hf c hmem with h' | h' | h'
      · exact Or.inl h'
      · rw [h'] at hsp; exact absurd hsp (by simp)
      · exact Or.inr h'
  have h3 : ∀ c ∈ collapseRunsAux (fun x => x = '-') '_' false
      (collapseRunsAux isJsSpace '_' false (s.filter keepSlugChar)), c = '_' := by
    intro c hc
    rcases mem_collapseRunsAux_elim _ _ _ _ _ hc with heq | ⟨hmem, hhy⟩
    · exact heq
    · rcases h2 c hmem with h' | h'
      · exact h'
      · rw [h'] at hhy; exact absurd hhy (by simp)
  have h3' : ∀ c ∈ collapseRunsAux (fun x => x = '-') '_' false
      (collapseRunsAux isJsSpace '_' false (s.filter keepSlugChar)),
      (fun x => decide (x = '_')) c = true := by
    intro c hc
    simp [h3 c hc]
  rw [slugify]
  simp only [collapseRuns]
  by_cases hnil : collapseRunsAux (fun x => x = '-') '_' false
      (collapseRunsAux isJsSpace '_' false (s.filter keepSlugChar)) = []
  · rw [hnil]
    rfl
  · rw [collapseRunsAux_false_of_all _ _ _ h3' hnil]
    rfl

/-! ### Normalization of whitespace-only names -/

theorem toLower_of_jsSpace (c : Char) (h : isJsSpace c = true) : Char.toLower c = c := by
  simp only [isJsSpace, Bool.or_eq_true, decide_eq_true_eq] at h
  rcases h with ((((h1 | h1) | h1) | h1) | h1) | h1 <;> subst h1 <;> decide

theorem toLowerStr_of_spaces : ∀ (s : Str), (∀ c ∈ s, isJsSpace c = true) →
    toLowerStr s = s
  | [] => fun _ => rfl
  | c :: t => fun h => by
    have hc := toLower_of_jsSpace c (h c (List.mem_cons_self c t))
    have ht := toLowerStr_of_spaces t (fun x hx => h x (List.mem_cons_of_mem _ hx))
    simp only [toLowerStr, List.map_cons, hc]
    simpa [toLowerStr] using ht

theorem jsTrim_eq_nil_of_spaces (s : Str) (h : ∀ c ∈ s, isJsSpace c = true) :
    jsTrim s = [] := by
  have h1 : trimLeft s = [] := List.dropWhile_eq_nil_iff.mpr h
  rw [jsTrim, h1]
  rfl

theorem normalizeName_eq_nil_of_spaces (s : Str) (h : ∀ c ∈ s, isJsSpace c = true) :
    normalizeName s = [] := by
  rw [normalizeName, toLowerStr_of_spaces s h]
  exact jsTrim_eq_nil_of_spaces s h

/-! ### Characterization of the numeric-extraction regex -/

/-- Every character is a decimal digit. -/
def AllDigits (l : Str) : Prop := ∀ c ∈ l, c.isDigit = true

/-- A string matched by `\d+(?:\.\d+)?`: a nonempty digit run, optionally
followed by a dot and a nonempty digit run. -/
def DecimalRun (m : Str) : Prop :=
  (m ≠ [] ∧ AllDigits m) ∨
  ∃ d1 d2, d1 ≠ [] ∧ d2 ≠ [] ∧ AllDigits d1 ∧ AllDigits d2 ∧ m = d1 ++ '.' :: d2

/-- `m` is the first, maximal match of `\d+(?:\.\d+)?` in `s`: no digit
occurs before it, it cannot be extended by a further digit, and a pure-digit
match cannot be extended by a fractional part. -/
def FirstMaximalMatch (s m : Str) : Prop :=
  ∃ pre post, s = pre ++ m ++ post ∧
    (∀ c ∈ pre, c.isDigit = false) ∧
    (∀ x rest, post = x :: rest → x.isDigit = false) ∧
    (AllDigits m → ∀ x rest, post = '.' :: x :: rest → x.isDigit = false)

theorem dropWhile_cons_head_not : ∀ (p : Char → Bool) (l : Str) (x : Char) (rest : Str),
    l.dropWhile p = x :: rest → p x = false
  | p, [], x, rest => by simp
  | p, c :: cs, x, rest => by
    by_cases hpc : p c = true
    · rw [List.dropWhile_cons, if_pos hpc]
      exact dropWhile_cons_head_not p cs x rest
    · rw [List.dropWhile_cons, if_neg hpc]
      intro h
      have h1 : c = x := by
        have := congrArg List.head? h
        simpa using this
      subst h1
      cases h' : p c with
      | false => rfl
      | true => exact absurd h' hpc

theorem takeWhile_nil_head_not (p : Char → Bool) (x : Char) (rest : Str)
    (h : (x :: rest).takeWhile p = []) : p x = false := by
  cases h' : p x with
  | false => rfl
  | true =>
    rw [List.takeWhile_cons, if_pos h'] at h
    exact absurd h (by simp)

theorem matchNumAt_spec (c : Char) (cs : Str) (hc : c.isDigit = true) :
    DecimalRun (matchNumAt (c :: cs)) ∧
    ∃ post, c :: cs = matchNumAt (c :: cs) ++ post ∧
      (∀ x rest, post = x :: rest → x.isDigit = false) ∧
      (AllDigits (matchNumAt (c :: cs)) → ∀ x rest, post = '.' :: x :: rest →
        x.isDigit = false) := by
  have hd1 : (c :: cs).takeWhile (fun x => x.isDigit) = c :: cs.takeWhile (fun x => x.isDigit) := by
    rw [List.takeWhile_cons, if_pos (by simpa using hc)]
  have hd1ne : (c :: cs).takeWhile (fun x => x.isDigit) ≠ [] := by
    rw [hd1]; simp
  have hall1 : AllDigits ((c :: cs).takeWhile (fun x => x.isDigit)) := by
    intro x hx
    simpa using List.mem_takeWhile_imp hx
  have happ : (c :: cs).takeWhile (fun x => x.isDigit) ++
      (c :: cs).dropWhile (fun x => x.isDigit) = c :: cs :=
    List.takeWhile_append_dropWhile _ _
  rcases hr : (c :: cs).dropWhile (fun x => x.isDigit) with _ | ⟨y, r2⟩
  · -- the digit run reaches the end of the string
    have hmatch : matchNumAt (c :: cs) = (c :: cs).takeWhile (fun x => x.isDigit) := by
      rw [matchNumAt, hr, matchNumTail, List.append_nil]
    refine ⟨Or.inl ?_, [], ?_, ?_, ?_⟩
    · rw [hmatch]
      exact ⟨hd1ne, hall1⟩
    · rw [hmatch]
      rw [hr] at happ
      simpa using happ.symm
    · intro x rest hx; exact absurd hx (by simp)
    · intro _ x rest hx; exact absurd hx (by simp)
  · by_cases hy : y = '.'
    · subst hy
      by_cases hd2 : (r2.takeWhile (fun x => x.isDigit)).isEmpty = true
      · -- a dot follows but no digit after it: match is the digit run only
        have hmatch : matchNumAt (c :: cs) = (c :: cs).takeWhile (fun x => x.isDigit) := by
          rw [matchNumAt, hr, matchNumTail, if_pos rfl, if_pos hd2, List.append_nil]
        refine ⟨Or.inl ?_, '.' :: r2, ?_, ?_, ?_⟩
        · rw [hmatch]; exact ⟨hd1ne, hall1⟩
        · rw [hmatch, ← hr]
          exact happ.symm
        · intro x rest hx
          injection hx with h1 _
          subst h1
          decide
        · intro _ x rest hx
          injection hx with _ h2
          have hnil : r2.takeWhile (fun x => x.isDigit) = [] := by
            simpa [List.isEmpty_iff] using hd2
          rw [h2] at hnil
          exact takeWhile_nil_head_not _ x rest hnil
      · -- a dot and at least one digit follow: fractional part included
        have hmatch : matchNumAt (c :: cs) = (c :: cs).takeWhile (fun x => x.isDigit) ++
            '.' :: r2.takeWhile (fun x => x.isDigit) := by
          rw [matchNumAt, hr, matchNumTail, if_pos rfl, if_neg hd2]
        have hall2 : AllDigits (r2.takeWhile (fun x => x.isDigit)) := by
          intro x hx
          simpa using List.mem_takeWhile_imp hx
        have hd2ne : r2.takeWhile (fun x => x.isDigit) ≠ [] := by
          simpa [List.isEmpty_iff] using hd2
        refine ⟨Or.inr ⟨_, _, hd1ne, hd2ne, hall1, hall2, hmatch⟩,
          r2.dropWhile (fun x => x.isDigit), ?_, ?_, ?_⟩
        · rw [hmatch]
          have hr2 : r2.takeWhile (fun x => x.isDigit) ++
              r2.dropWhile (fun x => x.isDigit) = r2 :=
            List.takeWhile_append_dropWhile _ _
          calc c :: cs = (c :: cs).takeWhile (fun x => x.isDigit) ++
                (c :: cs).dropWhile (fun x => x.isDigit) := happ.symm
            _ = (c :: cs).takeWhile (fun x => x.isDigit) ++ '.' :: r2 := by rw [hr]
            _ = (c :: cs).takeWhile (fun x => x.isDigit) ++ '.' ::
                (r2.takeWhile (fun x => x.isDigit) ++ r2.dropWhile (fun x => x.isDigit)) := by
                rw [hr2]
            _ = ((c :: cs).takeWhile (fun x => x.isDigit) ++
                '.' :: r2.takeWhile (fun x => x.isDigit)) ++
                r2.dropWhile (fun x => x.isDigit) := by simp
        · intro x rest hx
          exact dropWhile_cons_head_not _ r2 x rest hx
        · intro hAD
          exfalso
          have hdot : ('.' : Char).isDigit = true := by
            apply hAD
            rw [hmatch]
            exact List.mem_append.mpr (Or.inr (List.mem_cons_self _ _))
          exact absurd hdot (by decide)
    · -- a non-dot, non-digit character follows the digit run
      have hmatch : matchNumAt (c :: cs) = (c :: cs).takeWhile (fun x => x.isDigit) := by
        rw [matchNumAt, hr, matchNumTail, if_neg hy, List.append_nil]
      refine ⟨Or.inl ?_, y :: r2, ?_, ?_, ?_⟩
      · rw [hmatch]; exact ⟨hd1ne, hall1⟩
      · rw [hmatch, ← hr]
        exact happ.symm
      · intro x rest hx
        have h1 : y = x := by
          have := congrArg List.head? hx
          simpa using this
        subst h1
        exact dropWhile_cons_head_not _ (c :: cs) y r2 (by rw [hr])
      · intro _ x rest hx
        have h1 : y = '.' := by
          have := congrArg List.head? hx
          simpa using this
        exact absurd h1 hy

theorem findNum_some_spec : ∀ (s m : Str), findNum s = some m →
    DecimalRun m ∧ FirstMaximalMatch s m
  | [], m => by simp [findNum]
  | c :: cs, m => by
    intro h
    by_cases hc : c.isDigit = true
    · rw [findNum, if_pos hc] at h
      injection h with h'
      subst h'
      obtain ⟨hdr, post, happ, h3, h4⟩ := matchNumAt_spec c cs hc
      exact ⟨hdr, [], post, by simpa using happ, by simp, h3, h4⟩
    · rw [findNum, if_neg hc] at h
      obtain ⟨hdr, pre, post, happ, hpre, h3, h4⟩ := findNum_some_spec cs m h
      refine ⟨hdr, c :: pre, post, by simp [happ], ?_, h3, h4⟩
      intro x hx
      rcases List.mem_cons.mp hx with heq | htail
      · subst heq
        cases h' : x.isDigit with
        | false => rfl
        | true => exact absurd h' hc
      · exact hpre x htail

theorem findNum_none_iff : ∀ (s : Str), findNum s = none ↔ ∀ c ∈ s, c.isDigit = false
  | [] => by simp [findNum]
  | c :: cs => by
    by_cases hc : c.isDigit = true
    · rw [findNum, if_pos hc]
      constructor
      · intro h; exact absurd h (by simp)
      · intro h
        exact absurd (h c (List.mem_cons_self c cs)) (by simp [hc])
    · rw [findNum, if_neg hc]
      rw [findNum_none_iff cs]
      constructor
      · intro h x hx
        rcases List.mem_cons.mp hx with heq | htail
        · subst heq
          cases h' : x.isDigit with
          | false => rfl
          | true => exact absurd h' hc
        · exact h x htail
      · intro h x hx
        exact h x (List.mem_cons_of_mem _ hx)

/-! ### The record-builder loops -/

theorem labLoop_eq : ∀ (dp : Str → JsDate) (now : Int) (uid : Str)
    (acc : List HealthMetric) (l : List LabResult),
    labLoop dp now uid acc l = acc ++ l.filterMap (labRecord dp now uid)
  | dp, now, uid, acc, [] => by simp [labLoop]
  | dp, now, uid, acc, r :: rest => by
    cases h : labRecord dp now uid r with
    | none =>
      rw [labLoop, h, labLoop_eq dp now uid acc rest, List.filterMap_cons_none h]
    | some m =>
      rw [labLoop, h]
      show labLoop dp now uid (acc ++ [m]) rest = _
      rw [labLoop_eq dp now uid (acc ++ [m]) rest, List.filterMap_cons_some h]
      simp

theorem vitalLoop_eq : ∀ (dp : Str → JsDate) (now : Int) (uid : Str)
    (acc : List HealthMetric) (l : List Vital),
    vitalLoop dp now uid acc l = acc ++ l.filterMap (vitalRecord dp now uid)
  | dp, now, uid, acc, [] => by simp [vitalLoop]
  | dp, now, uid, acc, v :: rest => by
    cases h : vitalRecord dp now uid v with
    | none =>
      rw [vitalLoop, h, vitalLoop_eq dp now uid acc rest, List.filterMap_cons_none h]
    | some m =>
      rw [vitalLoop, h]
      show vitalLoop dp now uid (acc ++ [m]) rest = _
      rw [vitalLoop_eq dp now uid (acc ++ [m]) rest, List.filterMap_cons_some h]
      simp

/-- The imperative accumulation is the concatenation of the two filtered
maps: lab-derived records first, then vital-derived records, each in input
order. -/
theorem buildRecords_eq (dp : Str → JsDate) (now : Int) (uid : Str)
    (d : ExtractedHealthData) :
    buildRecords dp now uid d =
      (d.labResults.getD []).filterMap (labRecord dp now uid) ++
      (d.vitals.getD []).filterMap (vitalRecord dp now uid) := by
  obtain ⟨dt, dd, pv, lr, vt, dg, md, nt⟩ := d
  cases lr with
  | none =>
    cases vt with
    | none => simp [buildRecords]
    | some vs => simp [buildRecords, vitalLoop_eq]
  | some ls =>
    cases vt with
    | none => simp [buildRecords, labLoop_eq]
    | some vs => simp [buildRecords, labLoop_eq, vitalLoop_eq]

theorem labRecord_eq_none_iff (dp : Str → JsDate) (now : Int) (uid : Str)
    (r : LabResult) :
    labRecord dp now uid r = none ↔ (r.test = [] ∨ parseNumericValue r.value = none) := by
  by_cases ht : r.test = []
  · simp [labRecord, ht]
  · cases hv : parseNumericValue r.value with
    | none => simp [labRecord, ht, hv]
    | some q => simp [labRecord, ht, hv]

theorem vitalRecord_eq_none_iff (dp : Str → JsDate) (now : Int) (uid : Str)
    (v : Vital) :
    vitalRecord dp now uid v = none ↔ (v.type = [] ∨ v.value = none) := by
  by_cases ht : v.type = []
  · simp [vitalRecord, ht]
  · cases hv : v.value with
    | none => simp [vitalRecord, ht, hv]
    | some q => simp [vitalRecord, ht, hv]

theorem labRecord_isSome_iff (dp : Str → JsDate) (now : Int) (uid : Str)
    (r : LabResult) :
    (labRecord dp now uid r).isSome = true ↔
      (r.test ≠ [] ∧ parseNumericValue r.value ≠ none) := by
  rw [Option.isSome_iff_ne_none, Ne, labRecord_eq_none_iff]
  tauto

theorem vitalRecord_isSome_iff (dp : Str → JsDate) (now : Int) (uid : Str)
    (v : Vital) :
    (vitalRecord dp now uid v).isSome = true ↔ (v.type ≠ [] ∧ v.value ≠ none) := by
  rw [Option.isSome_iff_ne_none, Ne, vitalRecord_eq_none_iff]
  tauto

theorem labRecord_recordedAt (dp : Str → JsDate) (now : Int) (uid : Str)
    (r : LabResult) (m : HealthMetric) (h : labRecord dp now uid r = some m) :
    m.recordedAt = if r.date = [] then some now else dp r.date := by
  by_cases ht : r.test = []
  · rw [labRecord, if_pos ht] at h
    exact absurd h (by simp)
  · rw [labRecord, if_neg ht] at h
    cases hv : parseNumericValue r.value with
    | none => rw [hv] at h; exact absurd h (by simp)
    | some q =>
      rw [hv] at h
      injection h with h'
      rw [← h']

/-! ### Facts about the dictionary -/

theorem metricTypeMap_keys_nodup : (metricTypeMap.map Prod.fst).Nodup := by decide

theorem metricTypeMap_values_ne_nil : ∀ p ∈ metricTypeMap, p.2 ≠ [] := by decide

/-! ### Fixtures for witnesses -/

/-- A well-formed lab result (the spec's end-to-end glucose example). -/
def exLabGood : LabResult :=
  ⟨"Glucose".toList, JsValue.str "95".toList, "mg/dL".toList, [], "2024-01-15".toList⟩

/-- A lab result with an empty test name (dropped by the builder). -/
def exLabBad : LabResult := ⟨[], JsValue.str "10".toList, [], [], []⟩

/-- A well-formed vital (the spec's end-to-end heart-rate example). -/
def exVitalGood : Vital := ⟨"Heart Rate".toList, some 72, "bpm".toList, []⟩

/-- Extracted data with one good and one dropped lab result and one vital. -/
def exDataMixed : ExtractedHealthData :=
  ⟨none, none, none, some [exLabGood, exLabBad], some [exVitalGood], none, none, none⟩

/-- Extracted data with one good lab result and one good vital. -/
def exDataGood : ExtractedHealthData :=
  ⟨none, none, none, some [exLabGood], some [exVitalGood], none, none, none⟩

/-- The spec's no-op scenario: a single lab result with empty test name. -/
def exDataEmptyTest : ExtractedHealthData :=
  ⟨none, none, none, some [exLabBad], none, none, none, none⟩

/-! ### Claims -/

/-- C1 counterexample: the test name `"???"` is non-empty, so it survives
the builder's `!result.test` check; it has no exact and no substring match,
and its slug is the empty string, so `metricType` is empty — refuting the
claim that `metricType` is never empty for every surviving test name. -/
theorem claim1_counterexample :
    ("???".toList ≠ ([] : Str)) ∧
    lookupStr metricTypeMap (normalizeName "???".toList) = none ∧
    findSubstringMatch metricTypeMap (normalizeName "???".toList) = none ∧
    getMetricType "???".toList = [] := by decide

/-- C1 (amended): the classifier's output is empty exactly when the
normalized name is non-empty, matches no dictionary entry exactly or by
substring, and contains no alphanumeric character (so slugification deletes
every character). In particular the output is non-empty whenever the
normalized name contains an alphanumeric character or is empty. -/
theorem claim1_metricType_empty_iff : ∀ s : Str,
    getMetricType s = [] ↔
      (normalizeName s ≠ [] ∧
       lookupStr metricTypeMap (normalizeName s) = none ∧
       findSubstringMatch metricTypeMap (normalizeName s) = none ∧
       ∀ c ∈ normalizeName s, c.isAlphanum = false) := by
  intro s
  constructor
  · intro h
    cases hlk : lookupStr metricTypeMap (normalizeName s) with
    | some v =>
      have hmem := lookupStr_mem _ _ _ hlk
      have hv : v ≠ [] := metricTypeMap_values_ne_nil _ hmem
      simp only [getMetricType, hlk] at h
      rw [if_neg (by simp [List.isEmpty_iff, hv])] at h
      exact absurd h hv
    | none =>
      simp only [getMetricType, hlk] at h
      cases hfs : findSubstringMatch metricTypeMap (normalizeName s) with
      | some v =>
        obtain ⟨k, hmem⟩ := findSubstringMatch_mem _ _ _ hfs
        have hv : v ≠ [] := metricTypeMap_values_ne_nil _ hmem
        simp only [metricFallback, hfs] at h
        exact absurd h hv
      | none =>
        simp only [metricFallback, hfs] at h
        have hne : normalizeName s ≠ [] := by
          intro hnil
          rw [hnil] at hfs
          exact absurd hfs (by decide)
        refine ⟨hne, rfl, rfl, ?_⟩
        intro c hc
        cases ha : c.isAlphanum with
        | false => rfl
        | true => exact absurd h (slugify_ne_nil_of_alnum _ c ha hc)
  · rintro ⟨hne, hlk, hfs, hna⟩
    simp only [getMetricType, hlk, metricFallback, hfs]
    exact slugify_eq_nil_of_no_alnum _ hna

/-- C1 witness: a name containing an alphanumeric character is never
classified as the empty string. -/
theorem claim1_witness : getMetricType "!!x!!".toList ≠ [] := by
  intro h
  obtain ⟨-, -, -, hno⟩ := (claim1_metricType_empty_iff "!!x!!".toList).mp h
  exact absurd (hno 'x' (by decide)) (by decide)

/-- C2 counterexample: a lab result with a non-empty test name and the
present but unparsable date string `"garbage"` is built with
`recordedAt = new Date("garbage")`, an Invalid Date (`none`) — not the
current time (`some 99`) as the claim states. -/
theorem claim2_counterexample :
    (labRecord isoDateParse 99 "u".toList
      ⟨"Glucose".toList, JsValue.str "95".toList, "mg/dL".toList, [], "garbage".toList⟩).map
      HealthMetric.recordedAt = some none ∧
    some (none : JsDate) ≠ some (some (99 : Int)) := by decide

/-- C2 (amended): for every lab result the builder keeps, `recordedAt` is
the current time exactly when the date field is absent or empty; when the
date field is a non-empty string it is `new Date(date)` — the parsed
timestamp when parsable and an Invalid Date when not — never the current
time. -/
theorem claim2_recordedAt : ∀ (dp : Str → JsDate) (now : Int) (uid : Str)
    (r : LabResult) (m : HealthMetric), labRecord dp now uid r = some m →
    (r.date = [] → m.recordedAt = some now) ∧
    (r.date ≠ [] → m.recordedAt = dp r.date) := by
  intro dp now uid r m h
  have hrec := labRecord_recordedAt dp now uid r m h
  constructor
  · intro hd; rw [hrec, if_pos hd]
  · intro hd; rw [hrec, if_neg hd]

/-- C2 witness: the glucose fixture with an ISO date is kept, and its
`recordedAt` is the parsed date, not the current time. -/
theorem claim2_witness :
    (("2024-01-15".toList = ([] : Str)) →
      (⟨"u".toList, "blood_glucose".toList, 95, "mg/dL".toList, some 20240115,
        "document_extraction".toList⟩ : HealthMetric).recordedAt = some 99) ∧
    (("2024-01-15".toList ≠ ([] : Str)) →
      (⟨"u".toList, "blood_glucose".toList, 95, "mg/dL".toList, some 20240115,
        "document_extraction".toList⟩ : HealthMetric).recordedAt =
        isoDateParse "2024-01-15".toList) :=
  claim2_recordedAt isoDateParse 99 "u".toList exLabGood _ (by decide)

/-- C3: the numeric value parser returns null on null, undefined and the
empty string; returns numbers unchanged; on strings it returns null exactly
when the string contains no digit, and otherwise returns `parseFloat` of
the first maximal match of `\d+(?:\.\d+)?`; in particular
`parseNumeric("95-120") = 95` and `parseNumeric("< 100") = 100`. -/
theorem claim3_parseNumeric :
    parseNumericValue JsValue.null = none ∧
    parseNumericValue JsValue.undef = none ∧
    parseNumericValue (JsValue.str []) = none ∧
    (∀ q : ℚ, parseNumericValue (JsValue.num q) = some q) ∧
    (∀ s : Str, parseNumericValue (JsValue.str s) = none ↔ ∀ c ∈ s, c.isDigit = false) ∧
    (∀ (s m : Str), findNum s = some m →
      parseNumericValue (JsValue.str s) = some (parseFloatModel m) ∧
      DecimalRun m ∧ FirstMaximalMatch s m) ∧
    parseNumericValue (JsValue.str "95-120".toList) = some 95 ∧
    parseNumericValue (JsValue.str "< 100".toList) = some 100 := by
  refine ⟨rfl, rfl, rfl, fun q => rfl, ?_, ?_, by decide, by decide⟩
  · intro s
    by_cases hs : s = []
    · subst hs
      exact iff_of_true rfl (by simp)
    · rw [parseNumericValue, if_neg hs]
      cases hf : findNum s with
      | none => exact iff_of_true rfl ((findNum_none_iff s).mp hf)
      | some m =>
        constructor
        · intro hcontra
          exact absurd hcontra (by simp)
        · intro hall
          rw [(findNum_none_iff s).mpr hall] at hf
          exact absurd hf (by simp)
  · intro s m hf
    have hs : s ≠ [] := by
      intro hnil
      rw [hnil] at hf
      exact absurd hf (by simp [findNum])
    obtain ⟨hdr, hfm⟩ := findNum_some_spec s m hf
    refine ⟨?_, hdr, hfm⟩
    rw [parseNumericValue, if_neg hs, hf]
    rfl

/-- C3 witness: on `"95-120"` the first maximal decimal run is `"95"` and
the parsed value is `parseFloat("95")`. -/
theorem claim3_witness :
    parseNumericValue (JsValue.str "95-120".toList) =
      some (parseFloatModel "95".toList) ∧
    DecimalRun "95".toList ∧ FirstMaximalMatch "95-120".toList "95".toList :=
  claim3_parseNumeric.2.2.2.2.2.1 "95-120".toList "95".toList (by decide)

/-- C4: every dictionary synonym — and every variant of it differing only
in letter case or leading/trailing whitespace, i.e. every string
normalizing to that key — is classified to the key's canonical
identifier. -/
theorem claim4_exact_synonyms : ∀ (k v : Str), (k, v) ∈ metricTypeMap →
    ∀ s : Str, normalizeName s = k → getMetricType s = v := by
  intro k v hmem s hn
  have hl : lookupStr metricTypeMap k = some v :=
    lookupStr_eq_of_mem_nodup _ _ _ metricTypeMap_keys_nodup hmem
  have hv : v ≠ [] := metricTypeMap_values_ne_nil _ hmem
  simp only [getMetricType, hn, hl]
  rw [if_neg (by simp [List.isEmpty_iff, hv])]

/-- C4 witness: `classify(" LDL ") = classify("ldl") = "ldl_cholesterol"`. -/
theorem claim4_witness :
    getMetricType " LDL ".toList = "ldl_cholesterol".toList ∧
    getMetricType "ldl".toList = "ldl_cholesterol".toList :=
  ⟨claim4_exact_synonyms "ldl".toList "ldl_cholesterol".toList (by decide)
      " LDL ".toList (by decide),
    claim4_exact_synonyms "ldl".toList "ldl_cholesterol".toList (by decide)
      "ldl".toList (by decide)⟩

/-- C5: when the normalized name has no exact match but some dictionary
entry matches by substring containment (in either direction), the
classifier returns the canonical type of the first such entry in
declaration order. -/
theorem claim5_first_substring_match : ∀ (s : Str) (i : Nat),
    i < metricTypeMap.length →
    lookupStr metricTypeMap (normalizeName s) = none →
    EntryMatches (normalizeName s) (metricTypeMap.getD i ([], [])) →
    (∀ j, j < i → ¬ EntryMatches (normalizeName s) (metricTypeMap.getD j ([], []))) →
    getMetricType s = (metricTypeMap.getD i ([], [])).2 := by
  intro s i hi hlk hm hprev
  have hb : entryMatchesB (normalizeName s) (metricTypeMap.getD i ([], [])) = true :=
    (entryMatches_iff _ _).mp hm
  have hprevb : ∀ j, j < i →
      entryMatchesB (normalizeName s) (metricTypeMap.getD j ([], [])) = false := by
    intro j hj
    cases h : entryMatchesB (normalizeName s) (metricTypeMap.getD j ([], [])) with
    | false => rfl
    | true => exact absurd ((entryMatches_iff _ _).mpr h) (hprev j hj)
  have hf := findSubstringMatch_first metricTypeMap (normalizeName s) i hi hb hprevb
  simp only [getMetricType, hlk, metricFallback, hf]

/-- C5 witness: `"Fasting Blood Sugar"` has no exact match; the first
matching entry in declaration order is the third one, `"blood sugar"`,
whose canonical type is `"blood_glucose"`. -/
theorem claim5_witness : getMetricType "Fasting Blood Sugar".toList = "blood_glucose".toList := by
  have h := claim5_first_substring_match "Fasting Blood Sugar".toList 2 (by decide)
    (by decide)
    ((entryMatches_iff _ _).mpr (by decide))
    (by
      intro j hj hm
      have hb := (entryMatches_iff _ _).mp hm
      have hj' : j = 0 ∨ j = 1 := by omega
      rcases hj' with h | h <;> subst h <;> revert hb <;> decide)
  exact h.trans (by decide)

/-- C6: the builder drops exactly the ill-formed items: a lab result with
empty test name or null-parsing value, a vital with empty type or
null/undefined value; the batch length is at most the number of lab
results plus the number of vitals, with equality exactly when every item
is well-formed. -/
theorem claim6_drops_and_length : ∀ (dp : Str → JsDate) (now : Int) (uid : Str)
    (d : ExtractedHealthData),
    (∀ r : LabResult, (r.test = [] ∨ parseNumericValue r.value = none) →
      labRecord dp now uid r = none) ∧
    (∀ v : Vital, (v.type = [] ∨ v.value = none) → vitalRecord dp now uid v = none) ∧
    (buildRecords dp now uid d).length ≤
      (d.labResults.getD []).length + (d.vitals.getD []).length ∧
    ((buildRecords dp now uid d).length =
        (d.labResults.getD []).length + (d.vitals.getD []).length ↔
      (∀ r ∈ d.labResults.getD [], r.test ≠ [] ∧ parseNumericValue r.value ≠ none) ∧
      (∀ v ∈ d.vitals.getD [], v.type ≠ [] ∧ v.value ≠ none)) := by
  intro dp now uid d
  have h1 : ((d.labResults.getD []).filterMap (labRecord dp now uid)).length ≤
      (d.labResults.getD []).length := List.length_filterMap_le _ _
  have h2 : ((d.vitals.getD []).filterMap (vitalRecord dp now uid)).length ≤
      (d.vitals.getD []).length := List.length_filterMap_le _ _
  refine ⟨fun r h => (labRecord_eq_none_iff dp now uid r).mpr h,
    fun v h => (vitalRecord_eq_none_iff dp now uid v).mpr h, ?_, ?_⟩
  · rw [buildRecords_eq, List.length_append]
    omega
  · rw [buildRecords_eq, List.length_append]
    constructor
    · intro h
      have e1 : ((d.labResults.getD []).filterMap (labRecord dp now uid)).length =
          (d.labResults.getD []).length := by omega
      have e2 : ((d.vitals.getD []).filterMap (vitalRecord dp now uid)).length =
          (d.vitals.getD []).length := by omega
      exact ⟨fun r hr => (labRecord_isSome_iff dp now uid r).mp
          (List.filterMap_length_eq_length.mp e1 r hr),
        fun v hv => (vitalRecord_isSome_iff dp now uid v).mp
          (List.filterMap_length_eq_length.mp e2 v hv)⟩
    · rintro ⟨ha, hb⟩
      have e1 := List.filterMap_length_eq_length.mpr
        (fun r hr => (labRecord_isSome_iff dp now uid r).mpr (ha r hr))
      have e2 := List.filterMap_length_eq_length.mpr
        (fun v hv => (vitalRecord_isSome_iff dp now uid v).mpr (hb v hv))
      omega

/-- C6 witness: on mixed data (one good lab result, one with an empty test
name, one good vital) the batch length is bounded by the input sizes. -/
theorem claim6_witness :
    (buildRecords isoDateParse 0 "u".toList exDataMixed).length ≤
      (exDataMixed.labResults.getD []).length + (exDataMixed.vitals.getD []).length :=
  (claim6_drops_and_length isoDateParse 0 "u".toList exDataMixed).2.2.1

/-- C7: the batch is the lab-derived records followed by the vital-derived
records, each group a filtered map of its input list and therefore in the
original input order. -/
theorem claim7_concat_order : ∀ (dp : Str → JsDate) (now : Int) (uid : Str)
    (d : ExtractedHealthData),
    buildRecords dp now uid d =
      (d.labResults.getD []).filterMap (labRecord dp now uid) ++
      (d.vitals.getD []).filterMap (vitalRecord dp now uid) :=
  fun dp now uid d => buildRecords_eq dp now uid d

/-- C7 witness: the spec's end-to-end scenario — a glucose lab result and a
heart-rate vital produce exactly the two expected records, lab first. -/
theorem claim7_witness :
    buildRecords isoDateParse 7 "u".toList exDataGood =
      [⟨"u".toList, "blood_glucose".toList, 95, "mg/dL".toList, some 20240115,
        "document_extraction".toList⟩,
       ⟨"u".toList, "heart_rate".toList, 72, "bpm".toList, some 7,
        "document_extraction".toList⟩] := by
  rw [claim7_concat_order]
  decide

/-- C8: when the built batch is empty no call is made to the storage
collaborator and the function returns true; when it is non-empty exactly
one call is made, with the batch as argument, and its boolean result is
returned. -/
theorem claim8_persistence : ∀ (save : List HealthMetric → Except Unit Bool)
    (dp : Str → JsDate) (now : Int) (uid fn tx : Str) (d : ExtractedHealthData),
    (buildRecords dp now uid d = [] →
      processAndSaveHealthData save dp now uid fn tx d = (true, [])) ∧
    (∀ b : Bool, buildRecords dp now uid d ≠ [] →
      save (buildRecords dp now uid d) = Except.ok b →
      processAndSaveHealthData save dp now uid fn tx d =
        (b, [buildRecords dp now uid d])) := by
  intro save dp now uid fn tx d
  constructor
  · intro h
    simp [processAndSaveHealthData, h]
  · intro b hne hok
    have hlen : 0 < (buildRecords dp now uid d).length := List.length_pos.mpr hne
    cases b with
    | true => simp [processAndSaveHealthData, hlen, hok]
    | false => simp [processAndSaveHealthData, hlen, hok]

/-- C8 witness: the spec's no-op scenario — a single lab result with empty
test name yields an empty batch, no collaborator call, and result true,
even with a collaborator that would report failure. -/
theorem claim8_witness :
    processAndSaveHealthData (fun _ => Except.ok false) isoDateParse 0 "u".toList
      [] [] exDataEmptyTest = (true, []) :=
  (claim8_persistence (fun _ => Except.ok false) isoDateParse 0 "u".toList
    [] [] exDataEmptyTest).1 (by decide)

/-- C9: when the storage collaborator throws on the (non-empty) batch, the
surrounding try/catch converts the exception into a `false` return; the
function is total, so no exception escapes. -/
theorem claim9_catch : ∀ (save : List HealthMetric → Except Unit Bool)
    (dp : Str → JsDate) (now : Int) (uid fn tx : Str) (d : ExtractedHealthData),
    buildRecords dp now uid d ≠ [] →
    save (buildRecords dp now uid d) = Except.error () →
    processAndSaveHealthData save dp now uid fn tx d =
      (false, [buildRecords dp now uid d]) := by
  intro save dp now uid fn tx d hne herr
  have hlen : 0 < (buildRecords dp now uid d).length := List.length_pos.mpr hne
  simp [processAndSaveHealthData, hlen, herr]

/-- C9 witness: with a throwing collaborator and a non-empty batch, the
result is false and the single attempted call carried the batch. -/
theorem claim9_witness :
    processAndSaveHealthData (fun _ => Except.error ()) isoDateParse 7 "u".toList
      [] [] exDataGood =
      (false, [buildRecords isoDateParse 7 "u".toList exDataGood]) :=
  claim9_catch (fun _ => Except.error ()) isoDateParse 7 "u".toList [] [] exDataGood
    (by decide) rfl

/-- C10: a non-empty, all-whitespace test name survives the builder's
truthiness check, normalizes to the empty string, and the substring
fallback matches the first dictionary entry (the empty string is a
substring of every key), so the classifier returns "blood_glucose". -/
theorem claim10_whitespace_first_entry : ∀ s : Str, s ≠ [] →
    (∀ c ∈ s, isJsSpace c = true) → getMetricType s = "blood_glucose".toList := by
  intro s _ hsp
  have hn : normalizeName s = [] := normalizeName_eq_nil_of_spaces s hsp
  unfold getMetricType
  rw [hn]
  decide

/-- C10 witness: a single space is classified as "blood_glucose". -/
theorem claim10_witness : getMetricType " ".toList = "blood_glucose".toList :=
  claim10_whitespace_first_entry " ".toList (by decide) (by decide)

end MiHealth

